import Mathlib

/-!
Verification of the recommendation scoring and collection synchronization
engine of the Immaculaterr repository.

The Python data structures are shallowly embedded:
  * JSON objects / Python dicts become association lists with distinct keys
    (`Store`), with `slookup`, `sinsert`, `serase` mirroring `d.get`,
    `d[k] = v`, `d.pop(k)`; dict insertion-order effects are not observable
    in any property proved here.
  * machine integers become `Int`.
  * network interactions (Plex fetches, move calls, operation attempts)
    become explicit oracle functions passed as parameters.
-/

namespace Immaculaterr

/-- Association-list store standing in for a Python dict. -/
abbrev Store (κ : Type) (V : Type) := List (κ × V)

section StoreOps

variable {κ V : Type} [DecidableEq κ]

/-- Dict lookup: `d.get(k)`. -/
def slookup : Store κ V → κ → Option V
  | [], _ => none
  | (k', v) :: t, k => if k' = k then some v else slookup t k

/-- Dict key removal: `d.pop(k)` / `del d[k]`. -/
def serase (pd : Store κ V) (k : κ) : Store κ V :=
  pd.filter (fun p => decide (p.1 ≠ k))

/-- Dict assignment `d[k] = v` (position of an existing key is not preserved,
which is unobservable in the properties proved here). -/
def sinsert (pd : Store κ V) (k : κ) (v : V) : Store κ V :=
  serase pd k ++ [(k, v)]

/-- The key list of a store. -/
def skeys (pd : Store κ V) : List κ := pd.map Prod.fst

theorem slookup_append (l₁ l₂ : Store κ V) (k : κ) :
    slookup (l₁ ++ l₂) k = (slookup l₁ k).orElse (fun _ => slookup l₂ k) := by
  induction l₁ with
  | nil => simp [slookup, Option.orElse]
  | cons p t ih =>
    by_cases h : p.1 = k
    · simp [slookup, h, Option.orElse]
    · simpa [slookup, h, Option.orElse] using ih

theorem slookup_serase (pd : Store κ V) (k k' : κ) :
    slookup (serase pd k) k' = if k' = k then none else slookup pd k' := by
  induction pd with
  | nil => simp [serase, slookup]
  | cons p t ih =>
    by_cases hk : p.1 = k
    · by_cases hkk : k' = k
      · simpa [serase, slookup, hk, hkk] using ih
      · have h2 : ¬ k = k' := fun hh => hkk hh.symm
        simpa [serase, slookup, hk, hkk, h2] using ih
    · by_cases hpk : p.1 = k'
      · by_cases hkk : k' = k
        · exact absurd (hpk.trans hkk) hk
        · simp [serase, slookup, hk, hpk, hkk]
      · simpa [serase, slookup, hk, hpk] using ih

theorem slookup_sinsert (pd : Store κ V) (k k' : κ) (v : V) :
    slookup (sinsert pd k v) k' = if k' = k then some v else slookup pd k' := by
  by_cases h : k' = k
  · simp [sinsert, slookup_append, slookup_serase, h, slookup, Option.orElse]
  · have h2 : ¬ k = k' := fun hh => h hh.symm
    simp [sinsert, slookup_append, slookup_serase, h, h2, slookup, Option.orElse]
    cases slookup pd k' <;> simp [Option.orElse]

theorem skeys_serase_sublist (pd : Store κ V) (k : κ) :
    (skeys (serase pd k)).Sublist (skeys pd) := by
  unfold skeys serase
  exact List.Sublist.map Prod.fst (List.filter_sublist pd)

theorem nodup_serase (pd : Store κ V) (k : κ) (h : (skeys pd).Nodup) :
    (skeys (serase pd k)).Nodup :=
  (skeys_serase_sublist pd k).nodup h

theorem not_mem_skeys_serase (pd : Store κ V) (k : κ) :
    k ∉ skeys (serase pd k) := by
  unfold skeys serase
  intro hmem
  rcases List.mem_map.mp hmem with ⟨p, hp, hfst⟩
  have := List.of_mem_filter hp
  simp at this
  exact this (hfst)

theorem nodup_sinsert (pd : Store κ V) (k : κ) (v : V) (h : (skeys pd).Nodup) :
    (skeys (sinsert pd k v)).Nodup := by
  unfold sinsert
  have h1 : skeys (serase pd k ++ [(k, v)]) = skeys (serase pd k) ++ [k] := by
    simp [skeys]
  rw [h1]
  refine List.Nodup.append (nodup_serase pd k h) (List.nodup_singleton k) ?_
  intro a ha hb
  have : a = k := by simpa using hb
  exact not_mem_skeys_serase pd k (this ▸ ha)

theorem slookup_isSome_of_mem_skeys (pd : Store κ V) (k : κ)
    (h : k ∈ skeys pd) : (slookup pd k).isSome := by
  induction pd with
  | nil => simp [skeys] at h
  | cons p t ih =>
    by_cases hk : p.1 = k
    · simp [slookup, hk]
    · have hor : k = p.1 ∨ k ∈ skeys t := by simpa [skeys] using h
      have : k ∈ skeys t := by
        rcases hor with h1 | h1
        · exact absurd h1.symm hk
        · exact h1
      simpa [slookup, hk] using ih this

theorem mem_skeys_of_slookup (pd : Store κ V) (k : κ) (v : V)
    (h : slookup pd k = some v) : k ∈ skeys pd := by
  induction pd with
  | nil => simp [slookup] at h
  | cons p t ih =>
    by_cases hk : p.1 = k
    · simp [skeys, hk]
    · simp [slookup, hk] at h
      simp [skeys]
      exact Or.inr (by simpa [skeys] using ih h)

end StoreOps

/-! TV scoring pass, embedded from `run_tv_pipeline` in
`pipeline_tv_immaculate.py` (the `tv_points_update` step, including key
migration, the suggested-items write, and the decay loop). -/

/-- A well-shaped value of the TV points store: the JSON object
`{"title": ..., "points": ..., "rating_key"?: ..., "tvdb_id"?: ...}`.
`none` fields model absent JSON keys. -/
structure TVEntry where
  title : Option String
  points : Option Int
  rating_key : Option String
  tvdb_id : Option Int
deriving DecidableEq, Repr

/-- A raw value of the TV points store: either a JSON object or any
non-object value (the code guards every access with `isinstance(v, dict)`). -/
inductive TVVal where
  | notDict : TVVal
  | entry : TVEntry → TVVal
deriving DecidableEq, Repr

/-- `_get_points` of `pipeline_tv_immaculate.py`: 0 for non-dict values and
for a missing or null `points` field. -/
def tvGetPoints : TVVal → Int
  | .notDict => 0
  | .entry e => e.points.getD 0

/-- The `int(v.get("tvdb_id") or 0)` read used to build the tvdb index
(0 when the field is absent, falsy or malformed). -/
def tvTvdbField : TVVal → Int
  | .notDict => 0
  | .entry e => e.tvdb_id.getD 0

/-- One recommendation of a TV run after title resolution: the canonical
title, its normalized form (normalization itself is external glue),
the Plex rating key (`""` when the show is not in Plex, matching the
code's falsy default) and the resolved tvdb id (0 when unresolved,
matching Python truthiness on `tvdb_id`). -/
structure TVRec where
  canonicalTitle : String
  normTitle : String
  ratingKey : String
  tvdbId : Int
deriving DecidableEq, Repr

/-- `_tv_points_key`: the stable `tvdb:` key when a tvdb id is known,
otherwise the normalized-title fallback key. -/
def tvPointsKey (normTitle : String) (tvdbId : Int) : String :=
  if tvdbId ≠ 0 then "tvdb:" ++ toString tvdbId else "title:" ++ normTitle

/-- The points key a recommendation resolves to. -/
def tvRecKey (r : TVRec) : String := tvPointsKey r.normTitle r.tvdbId

/-- The `existing_tvdb_to_key` index: built once over the store before the
suggestion loop, mapping each nonzero `tvdb_id` field to its key (later
entries win, as in the Python dict-building loop). -/
def tvBuildIndex (pd : Store String TVVal) : Store Int String :=
  pd.foldl (fun acc p => if tvTvdbField p.2 ≠ 0 then sinsert acc (tvTvdbField p.2) p.1 else acc) []

/-- The key-migration step (lines guarded by
`if old_key and old_key != key and old_key in points_data and key not in points_data`):
`points_data[key] = points_data.pop(old_key)` when it fires, identity otherwise. -/
def migrateKey (pd : Store String TVVal) (oldKey key : String) : Store String TVVal :=
  if oldKey ≠ key ∧ (slookup pd oldKey).isSome ∧ (slookup pd key).isNone then
    match slookup pd oldKey with
    | some v => sinsert (serase pd oldKey) key v
    | none => pd
  else pd

/-- The migration part of the loop body: when the run resolved a tvdb id
and the index knows a key for it, run `migrateKey` towards the
recommendation's key. -/
def tvMigrated (index : Store Int String) (pd : Store String TVVal) (r : TVRec) :
    Store String TVVal :=
  if r.tvdbId ≠ 0 then
    match slookup index r.tvdbId with
    | some oldKey => migrateKey pd oldKey (tvRecKey r)
    | none => pd
  else pd

/-- The entry the loop writes for one recommendation: start from the
existing entry when it is a dict (empty otherwise), set `title` and
`points = 50`, and set `rating_key` / `tvdb_id` only when the run has a
truthy value for them (otherwise the base entry's field survives). -/
def tvWriteEntry (pd : Store String TVVal) (r : TVRec) : TVEntry :=
  let base : TVEntry :=
    match slookup pd (tvRecKey r) with
    | some (.entry e) => e
    | _ => ⟨none, none, none, none⟩
  { title := some r.canonicalTitle
    points := some 50
    rating_key := if r.ratingKey ≠ "" then some r.ratingKey else base.rating_key
    tvdb_id := if r.tvdbId ≠ 0 then some r.tvdbId else base.tvdb_id }

/-- The body of the suggested-items loop for one recommendation: build the
key, migrate a stale key when the tvdb index knows one, then write the
entry with `points = 50` and record the key as suggested. -/
def tvSuggStep (index : Store Int String) (st : Store String TVVal × List String)
    (r : TVRec) : Store String TVVal × List String :=
  let pd1 := tvMigrated index st.1 r
  (sinsert pd1 (tvRecKey r) (.entry (tvWriteEntry pd1 r)), st.2 ++ [tvRecKey r])

/-- The whole suggested-items loop, returning the mutated store and the
`suggested_keys` set (as a list; only membership is ever used). -/
def tvSuggestPhase (pd : Store String TVVal) (recs : List TVRec) :
    Store String TVVal × List String :=
  recs.foldl (tvSuggStep (tvBuildIndex pd)) (pd, [])

/-- What the decay loop does to one binding: suggested keys are skipped,
every other key loses one point and is deleted (`none`) when the result is
`<= 0`; a non-dict value is only rewritten when it is a dict, i.e. never. -/
def tvDecayVal (sugg : List String) (k : String) (v : TVVal) : Option TVVal :=
  if k ∈ sugg then some v
  else
    let p2 := tvGetPoints v - 1
    if p2 ≤ 0 then none
    else
      match v with
      | .entry e => some (.entry { e with points := some p2 })
      | .notDict => some v

/-- The decay loop of `run_tv_pipeline` over the whole store. -/
def tvDecay (sugg : List String) (pd : Store String TVVal) : Store String TVVal :=
  pd.filterMap (fun p => (tvDecayVal sugg p.1 p.2).map (fun v => (p.1, v)))

/-- The full `tv_points_update` step of `run_tv_pipeline`: suggestion
updates (with migration) followed by decay. -/
def tvPointsUpdate (pd : Store String TVVal) (recs : List TVRec) : Store String TVVal :=
  let s := tvSuggestPhase pd recs
  tvDecay s.2 s.1

/-- The suggested keys of a run. -/
def tvSuggestedKeys (pd : Store String TVVal) (recs : List TVRec) : List String :=
  (tvSuggestPhase pd recs).2

/-- A TV points store is consistently keyed when every entry carrying a
nonzero `tvdb_id` field sits under the corresponding `tvdb:` key — which is
the only way the pipeline itself ever writes that field. -/
def TVWellKeyed (pd : Store String TVVal) : Prop :=
  ∀ p ∈ pd, tvTvdbField p.2 ≠ 0 → p.1 = "tvdb:" ++ toString (tvTvdbField p.2)

/-! String helpers shared by the embeddings (Python `.lower()` and `in`). -/

/-- Whether `needle` is a leading segment of `hay`. -/
def charsLead : List Char → List Char → Bool
  | [], _ => true
  | _ :: _, [] => false
  | a :: as, b :: bs => a = b && charsLead as bs

/-- Whether `needle` occurs contiguously inside `hay`. -/
def charsSub (needle : List Char) : List Char → Bool
  | [] => charsLead needle []
  | hay@(_ :: t) => charsLead needle hay || charsSub needle t

/-- Python's `str.lower()` (character-wise, which is what the ASCII markers
below ever observe). -/
def strLower (s : String) : String := ⟨s.data.map Char.toLower⟩

/-- Python's `needle in hay` on strings. -/
def strHasSub (hay needle : String) : Bool := charsSub needle.toList hay.toList

/-- Python's `any(keyword in s for keyword in ms)`. -/
def containsAny (s : String) (ms : List String) : Bool := ms.any (fun m => strHasSub s m)

/-! Movie scoring and collection synchronization, embedded from
`plex_collection_manager.py`. -/

/-- A Plex catalog item as the manager sees it: rating key, title, optional
year and the item type string (`"movie"`, `"show"`, `"clip"`, ...). -/
structure PlexItem where
  ratingKey : Int
  title : String
  year : Option Int
  itemType : String
deriving DecidableEq, Repr

/-- The stable string key used everywhere: `str(item.ratingKey)`. -/
def itemKey (i : PlexItem) : String := toString i.ratingKey

/-- A raw value of the movie points store: a bare number or a JSON object
with optional `points` / `score` fields (the shapes `_get_points` of
`plex_collection_manager.py` recognizes). -/
inductive PVal where
  | num : Int → PVal
  | obj : Option Int → Option Int → PVal
deriving DecidableEq, Repr

/-- `_get_points` of `plex_collection_manager.py`: missing key reads as 0;
an object reads its `points` field first, then `score`, else 0. -/
def pmGetPoints (pd : Store String PVal) (k : String) : Int :=
  match slookup pd k with
  | none => 0
  | some (.num n) => n
  | some (.obj p s) =>
    match p with
    | some x => x
    | none => s.getD 0

/-- `_set_points`: an object value gets its `points` field updated, any
other shape is replaced by the bare number. -/
def pmSetPoints (pd : Store String PVal) (k : String) (n : Int) : Store String PVal :=
  match slookup pd k with
  | some (.obj _ s) => sinsert pd k (.obj (some n) s)
  | _ => sinsert pd k (.num n)

/-- The `by_key` dict of `build_final_items_with_points`: existing items
then this run's items, de-duplicated by rating key (later wins). -/
def buildByKey (existing run : List PlexItem) : Store String PlexItem :=
  (existing ++ run).foldl (fun acc i => sinsert acc (itemKey i) i) []

/-- The ensure-points loop: create a 0-points entry for every collection
key missing from the store. -/
def ensureZeros (ks : List String) (pd : Store String PVal) : Store String PVal :=
  ks.foldl (fun acc k => if (slookup acc k).isSome then acc else pmSetPoints acc k 0) pd

/-- The boost loop: each suggested key gains one point, with no cap. -/
def boost (sugg : List String) (pd : Store String PVal) : Store String PVal :=
  sugg.foldl (fun acc k => pmSetPoints acc k (pmGetPoints acc k + 1)) pd

/-- The comparison realizing `sort(key=(points, title.lower()), reverse=True)`:
`a` may precede `b` when `b`'s key tuple is lexicographically at most `a`'s. -/
def movieSortLE (pd : Store String PVal) (a b : PlexItem) : Bool :=
  let pa := pmGetPoints pd (itemKey a)
  let pb := pmGetPoints pd (itemKey b)
  decide (pb < pa ∨ (pb = pa ∧ (strLower b.title < strLower a.title ∨ strLower b.title = strLower a.title)))

/-- `build_final_items_with_points`: returns the sorted final item list, the
suggested-now keys and the mutated points store (the Python function mutates
`points_data` in place). -/
def build_final_items_with_points (existing run : List PlexItem) (pd : Store String PVal) :
    List PlexItem × List String × Store String PVal :=
  let by_key := buildByKey existing run
  let suggested_now_keys := run.map itemKey
  let pd1 := ensureZeros (skeys by_key) pd
  let pd2 := boost suggested_now_keys pd1
  let all_items := by_key.map Prod.snd
  (all_items.mergeSort (movieSortLE pd2), suggested_now_keys, pd2)

/-- The diff computed by `refresh_collection_with_points` (membership by
string rating key): first component is `to_remove`, second is `to_add`. -/
def refreshDiff (current final : List PlexItem) : List PlexItem × List PlexItem :=
  let current_ids := current.map itemKey
  let desired_ids := final.map itemKey
  (current.filter (fun i => decide (itemKey i ∉ desired_ids)),
   final.filter (fun i => decide (itemKey i ∉ current_ids)))

/-- Accumulator of the fetch loop of `apply_collection_state_to_plex`. -/
structure ResolveAcc where
  desired : List PlexItem
  failedKeys : List String
  filteredNonMovies : List PlexItem
deriving DecidableEq, Repr

/-- The fetch loop of `apply_collection_state_to_plex`: resolve every
snapshot key through the section (`fetch` oracle models
`_fetch_by_rating_key`), keep only items whose type is `movie`, count the
unresolvable keys and the wrong-kind items separately. -/
def applyResolve (fetch : String → Option PlexItem) (rating_keys : List String) : ResolveAcc :=
  rating_keys.foldl (fun acc rk =>
    match fetch rk with
    | some item =>
      if strLower item.itemType = "movie" then
        { acc with desired := acc.desired ++ [item] }
      else
        { acc with filteredNonMovies := acc.filteredNonMovies ++ [item] }
    | none => { acc with failedKeys := acc.failedKeys ++ [rk] }) ⟨[], [], []⟩

/-- The membership calls `apply_collection_state_to_plex` issues: one
`removeItems` over all existing items and one `addItems` (or
`createCollection`) over all resolved desired items; an empty list means
the corresponding call is skipped. -/
structure ApplyCalls where
  removeCall : List PlexItem
  addCall : List PlexItem
deriving DecidableEq, Repr

/-- The remove/add behavior of `apply_collection_state_to_plex` given the
existing membership and the snapshot's key list. -/
def applyCollectionCalls (fetch : String → Option PlexItem) (existing : List PlexItem)
    (rating_keys : List String) : ApplyCalls :=
  { removeCall := existing
    addCall := (applyResolve fetch rating_keys).desired }

/-! Ordering engine, embedded from `_apply_custom_order`. -/

/-- The loop state of `_apply_custom_order`: the current anchor
(`prev_id`), the success counter and the recorded failed moves. -/
structure OrderState where
  prev : Option Int
  successes : Nat
  failed : List Int
deriving DecidableEq, Repr

/-- One iteration of the move loop: a non-member is recorded as failed and
skipped; otherwise the anchor is validated against the membership snapshot
(reset to front if stale), the move is attempted (`moveOk` models whether
the PUT succeeds), and the anchor advances only on success. -/
def orderStep (members : List Int) (moveOk : Int → Option Int → Bool)
    (s : OrderState) (itemId : Int) : OrderState :=
  if itemId ∈ members then
    let anchor : Option Int :=
      match s.prev with
      | none => none
      | some p => if p ∈ members then some p else none
    if moveOk itemId anchor then ⟨some itemId, s.successes + 1, s.failed⟩
    else ⟨anchor, s.successes, s.failed ++ [itemId]⟩
  else ⟨s.prev, s.successes, s.failed ++ [itemId]⟩

/-- The whole move loop of `_apply_custom_order` over the target order. -/
def applyCustomOrder (members : List Int) (moveOk : Int → Option Int → Bool)
    (ordered : List Int) : OrderState :=
  ordered.foldl (orderStep members moveOk) ⟨none, 0, []⟩

/-! Resilience policy, embedded from `retry_utils.py`. -/

/-- The exception classes `is_retryable_error` distinguishes. -/
inductive ExcType where
  | httpError
  | timeout
  | readTimeoutError
  | connectTimeoutError
  | requestsConnectionError
  | connectionError
  | requestException
  | badRequest
  | notFound
  | otherExc
deriving DecidableEq, Repr

/-- An exception value: its class, the HTTP status of its response when it
has one, and its message (`str(e)`). -/
structure Exc where
  ty : ExcType
  status : Option Int
  msg : String
deriving DecidableEq, Repr

/-- The client-error markers of `is_retryable_error`. -/
def clientMarkers : List String :=
  ["400", "401", "403", "404", "bad request", "unauthorized", "forbidden", "not found"]

/-- The transient keywords of the `RequestException` branch. -/
def connKeywords : List String := ["timeout", "connection", "network", "unreachable"]

/-- The transient keywords of the generic branch. -/
def connKeywords2 : List String := ["timeout", "connection", "network", "unreachable", "overloaded"]

/-- The authentication markers of the generic branch. -/
def authMarkers : List String := ["401", "unauthorized", "forbidden", "403", "authentication"]

/-- The not-found markers of the generic branch. -/
def notFoundMarkers : List String := ["404", "not found"]

/-- `is_retryable_error`, with the exact branch structure of the source:
the `HTTPError` branch may return early or fall through, then typed
timeout/connection classes, then the plain `RequestException` branch, then
the generic message checks with a retryable default. -/
def isRetryableError (e : Exc) : Bool :=
  let s := strLower e.msg
  let httpRes : Option Bool :=
    if e.ty = ExcType.httpError then
      match e.status with
      | some sc =>
        if 400 ≤ sc ∧ sc < 500 then some false
        else if 500 ≤ sc ∧ sc < 600 then some true
        else if containsAny s clientMarkers then some false else none
      | none => if containsAny s clientMarkers then some false else none
    else none
  match httpRes with
  | some b => b
  | none =>
    if e.ty ∈ [ExcType.timeout, ExcType.readTimeoutError, ExcType.connectTimeoutError,
               ExcType.requestsConnectionError] then true
    else if e.ty = ExcType.connectionError then true
    else
      let reqRes : Option Bool :=
        if e.ty = ExcType.requestException then
          if containsAny s clientMarkers then some false
          else if containsAny s connKeywords then some true
          else none
        else none
      match reqRes with
      | some b => b
      | none =>
        if containsAny s connKeywords2 then true
        else if e.ty = ExcType.badRequest ∨ e.ty = ExcType.notFound then false
        else if containsAny s authMarkers then false
        else if containsAny s notFoundMarkers then false
        else true

/-- Whether the exception is one of the typed connection/timeout classes
(the requests/urllib timeout and connection classes and the builtin
`ConnectionError`). -/
def isTypedConnTimeout (e : Exc) : Bool :=
  e.ty ∈ [ExcType.timeout, ExcType.readTimeoutError, ExcType.connectTimeoutError,
          ExcType.requestsConnectionError, ExcType.connectionError]

/-- The authorization and not-found markers named by the specification's
classification rule (3). -/
def specAuthNotFoundMarkers : List String :=
  ["401", "unauthorized", "forbidden", "403", "authentication", "404", "not found"]

/-- Modelled from the spec: the classification rules as the specification
orders them — (1) a status in `[400,500)` is permanent; (2) a status in
`[500,600)` or any connection/timeout error is retryable; (3) an error
whose message contains an authorization/not-found marker is permanent;
(4) everything else is retryable. Stated for comparison with the source's
`isRetryableError`. -/
def specRetryableClassifier (e : Exc) : Bool :=
  let s := strLower e.msg
  let inRange : Int → Int → Bool := fun lo hi =>
    match e.status with
    | some sc => decide (lo ≤ sc ∧ sc < hi)
    | none => false
  if inRange 400 500 then false
  else if inRange 500 600 || isTypedConnTimeout e then true
  else if containsAny s specAuthNotFoundMarkers then false
  else true

/-- The outcome of one invocation of the wrapped operation. -/
inductive AttemptResult (T : Type) where
  | ok : T → AttemptResult T
  | err : Exc → AttemptResult T

/-- What `retry_with_backoff` does in the end: raise, or return the
`(result, succeeded)` pair. -/
inductive RetryFinal (T : Type) where
  | raised : Exc → RetryFinal T
  | returned : Option T → Bool → RetryFinal T
deriving DecidableEq

/-- Trace of one `retry_with_backoff` call: how many times the operation
ran, the sleeps performed between attempts, and the final outcome. -/
structure RetryResult (T : Type) where
  invocations : Nat
  delays : List Rat
  final : RetryFinal T

/-- The attempt loop of `retry_with_backoff` from `attempt` with
`retriesLeft` further attempts allowed; `results` models the outcome of
each invocation of `func`. -/
def retryRun {T : Type} (results : Nat → AttemptResult T) (raiseOnFinalFailure : Bool)
    (retryDelay backoffMultiplier : Rat) (attempt : Nat) : Nat → RetryResult T
  | 0 =>
    match results attempt with
    | .ok t => ⟨1, [], .returned (some t) true⟩
    | .err e => ⟨1, [], if raiseOnFinalFailure then .raised e else .returned none false⟩
  | n + 1 =>
    match results attempt with
    | .ok t => ⟨1, [], .returned (some t) true⟩
    | .err e =>
      if isRetryableError e then
        let rest := retryRun results raiseOnFinalFailure retryDelay backoffMultiplier (attempt + 1) n
        ⟨rest.invocations + 1, retryDelay * backoffMultiplier ^ attempt :: rest.delays, rest.final⟩
      else ⟨1, [], if raiseOnFinalFailure then .raised e else .returned none false⟩

/-- `retry_with_backoff`: up to `max_retries + 1` total attempts starting
at attempt index 0. -/
def retry_with_backoff {T : Type} (results : Nat → AttemptResult T) (maxRetries : Nat)
    (retryDelay backoffMultiplier : Rat) (raiseOnFinalFailure : Bool) : RetryResult T :=
  retryRun results raiseOnFinalFailure retryDelay backoffMultiplier 0 maxRetries

/-! Exit codes, embedded from `main` of `immaculate_taste_refresher.py`. -/

/-- How a refresher run ends: interrupted, an uncaught-in-body exception
(classified by whether it is one of the dependency-failure classes), or one
of the normal return paths of `main`. -/
inductive RefresherEvent where
  | interrupted
  | raised : Bool → RefresherEvent
  | missingPointsFile
  | emptyPointsData
  | noValidItems
  | completed : Bool → Nat → RefresherEvent
deriving DecidableEq, Repr

/-- `(stats.get("order_stats") or \x7b\x7d).get("failed", 0)`: the stats dict
returned by `apply_collection_state_to_plex` carries no `order_stats` key,
so this always reads 0. -/
def applyStatsOrderFailed : Nat := 0

/-- The exit code `main` returns for each way a run can end. -/
def refresherExitCode : RefresherEvent → Int
  | .interrupted => 130
  | .raised dependencyFailure => if dependencyFailure then 20 else 30
  | .missingPointsFile => 1
  | .emptyPointsData => 0
  | .noValidItems => 0
  | .completed dryRun failedKeys =>
    if ¬ dryRun ∧ (0 < failedKeys ∨ 0 < applyStatsOrderFailed) then 10 else 0

/-! Collection state snapshot, embedded from
`save_collection_state_to_json`. -/

/-- One record of the snapshot's `items` array. -/
structure SnapshotItem where
  rating_key : String
  title : String
  year : Option Int
  points : Int
deriving DecidableEq, Repr

/-- The snapshot JSON: the ordered key list plus the per-item records. -/
structure CollectionState where
  rating_keys : List String
  items : List SnapshotItem
deriving DecidableEq, Repr

/-- `save_collection_state_to_json` (the state it writes). -/
def save_collection_state_to_json (final_items : List PlexItem) (pd : Store String PVal) :
    CollectionState :=
  { rating_keys := final_items.map itemKey
    items := final_items.map (fun i => ⟨itemKey i, i.title, i.year, pmGetPoints pd (itemKey i)⟩) }

/-! Theorems. -/

/-- Claim C10: the snapshot written by `save_collection_state_to_json` always
has as many rating keys as item records, and position by position the key
list is exactly the `rating_key` field of the item records — both are built
from the same item list in the same order. -/
theorem snapshot_index_alignment (final_items : List PlexItem) (pd : Store String PVal) :
    (save_collection_state_to_json final_items pd).rating_keys.length
      = (save_collection_state_to_json final_items pd).items.length ∧
    (save_collection_state_to_json final_items pd).rating_keys
      = (save_collection_state_to_json final_items pd).items.map SnapshotItem.rating_key := by
  constructor
  · simp [save_collection_state_to_json]
  · simp [save_collection_state_to_json]

/-- Claim C9, counterexample: when the points file does not exist, `main`
returns exit code 1, which is none of the five documented statuses
0/10/20/30/130. -/
theorem refresher_exit_code_counterexample :
    refresherExitCode RefresherEvent.missingPointsFile = 1 ∧
    ¬ (refresherExitCode RefresherEvent.missingPointsFile = 0 ∨
       refresherExitCode RefresherEvent.missingPointsFile = 10 ∨
       refresherExitCode RefresherEvent.missingPointsFile = 20 ∨
       refresherExitCode RefresherEvent.missingPointsFile = 30 ∨
       refresherExitCode RefresherEvent.missingPointsFile = 130) := by
  decide

/-- Claim C9 as amended: every run of the refresher entry point ends with an
exit code in 0/1/10/20/30/130 — code 1 exactly when the points file is
missing — and both caught-exception paths convert to 130 (interrupt) or
20/30 (dependency / internal failure) rather than propagating. -/
theorem refresher_exit_codes_amended (ev : RefresherEvent) :
    (refresherExitCode ev = 0 ∨ refresherExitCode ev = 1 ∨ refresherExitCode ev = 10 ∨
     refresherExitCode ev = 20 ∨ refresherExitCode ev = 30 ∨ refresherExitCode ev = 130) ∧
    (refresherExitCode ev = 1 ↔ ev = RefresherEvent.missingPointsFile) ∧
    (ev = RefresherEvent.interrupted → refresherExitCode ev = 130) ∧
    (∀ dep, ev = RefresherEvent.raised dep →
      refresherExitCode ev = if dep then 20 else 30) := by
  cases ev with
  | interrupted => simp [refresherExitCode]
  | raised dep => cases dep <;> simp [refresherExitCode]
  | missingPointsFile => simp [refresherExitCode]
  | emptyPointsData => simp [refresherExitCode]
  | noValidItems => simp [refresherExitCode]
  | completed dry fk =>
    cases dry with
    | false =>
      by_cases h : 0 < fk
      · simp [refresherExitCode, applyStatsOrderFailed, h]
      · simp [refresherExitCode, applyStatsOrderFailed, h]
    | true => simp [refresherExitCode]

/-- Witness for the amended C9 theorem at concrete run outcomes. -/
theorem refresher_exit_codes_amended_witness :
    refresherExitCode RefresherEvent.interrupted = 130 ∧
    refresherExitCode (RefresherEvent.raised true) = 20 ∧
    refresherExitCode (RefresherEvent.raised false) = 30 :=
  ⟨(refresher_exit_codes_amended RefresherEvent.interrupted).2.2.1 rfl,
   by
    have h := (refresher_exit_codes_amended (RefresherEvent.raised true)).2.2.2 true rfl
    simpa using h,
   by
    have h := (refresher_exit_codes_amended (RefresherEvent.raised false)).2.2.2 false rfl
    simpa using h⟩

/-- Helper: `migrateKey` is the identity whenever the target key is already
present in the store. -/
theorem migrateKey_of_key_present (pd : Store String TVVal) (oldKey key : String)
    (h : (slookup pd key).isSome) : migrateKey pd oldKey key = pd := by
  unfold migrateKey
  rw [if_neg]
  intro hc
  rcases hc with ⟨_, _, h3⟩
  rw [Option.isNone_iff_eq_none] at h3
  rw [h3] at h
  simp at h

/-- Claim C5: when migration of a fallback key to a resolved stable key
fires, the stale key is gone, the stable key holds its old entry, and a
second run of the same migration is a no-op. -/
theorem key_migration_idempotence (pd : Store String TVVal) (oldKey key : String)
    (h1 : oldKey ≠ key) (h2 : (slookup pd oldKey).isSome)
    (h3 : (slookup pd key).isNone) :
    slookup (migrateKey pd oldKey key) oldKey = none ∧
    slookup (migrateKey pd oldKey key) key = slookup pd oldKey ∧
    migrateKey (migrateKey pd oldKey key) oldKey key = migrateKey pd oldKey key := by
  obtain ⟨v, hv⟩ := Option.isSome_iff_exists.mp h2
  have hm : migrateKey pd oldKey key = sinsert (serase pd oldKey) key v := by
    unfold migrateKey
    rw [if_pos ⟨h1, h2, h3⟩, hv]
  refine ⟨?_, ?_, ?_⟩
  · rw [hm, slookup_sinsert, if_neg h1, slookup_serase, if_pos rfl]
  · rw [hm, slookup_sinsert, if_pos rfl, hv]
  · refine migrateKey_of_key_present _ _ _ ?_
    rw [hm, slookup_sinsert, if_pos rfl]
    rfl

/-- Witness for C5 at a concrete store: a fallback title key carrying a
resolved tvdb id migrates onto the stable key. -/
theorem key_migration_idempotence_witness :
    slookup (migrateKey [("title:s", TVVal.entry ⟨some "S", some 7, none, some 9⟩)]
      "title:s" "tvdb:9") "title:s" = none :=
  (key_migration_idempotence [("title:s", TVVal.entry ⟨some "S", some 7, none, some 9⟩)]
    "title:s" "tvdb:9" (by decide) (by decide) (by decide)).1

/-- Claim C8: in the move loop, a non-member item is recorded as failed and
leaves the anchor alone; a failed move is recorded and leaves the anchor
alone; only a successful move advances the anchor, to the moved item — so
every move is issued against the last successful move's key. The last
conjunct is the invariant that makes the anchor-validation branch a no-op:
the anchor only ever holds members. -/
theorem ordering_anchor_recovery (members : List Int) (moveOk : Int → Option Int → Bool)
    (s : OrderState) (itemId : Int)
    (hinv : s.prev = none ∨ ∃ p, s.prev = some p ∧ p ∈ members) :
    (itemId ∉ members →
      (orderStep members moveOk s itemId).prev = s.prev ∧
      (orderStep members moveOk s itemId).failed = s.failed ++ [itemId] ∧
      (orderStep members moveOk s itemId).successes = s.successes) ∧
    (itemId ∈ members → moveOk itemId s.prev = false →
      (orderStep members moveOk s itemId).prev = s.prev ∧
      (orderStep members moveOk s itemId).failed = s.failed ++ [itemId] ∧
      (orderStep members moveOk s itemId).successes = s.successes) ∧
    (itemId ∈ members → moveOk itemId s.prev = true →
      (orderStep members moveOk s itemId).prev = some itemId ∧
      (orderStep members moveOk s itemId).failed = s.failed ∧
      (orderStep members moveOk s itemId).successes = s.successes + 1) ∧
    ((orderStep members moveOk s itemId).prev = none ∨
      ∃ p, (orderStep members moveOk s itemId).prev = some p ∧ p ∈ members) := by
  have hanchor :
      (match s.prev with
        | none => none
        | some p => if p ∈ members then some p else none) = s.prev := by
    rcases hinv with h | ⟨p, hp, hpm⟩
    · rw [h]
    · rw [hp]
      simp [hpm]
  refine ⟨?_, ?_, ?_, ?_⟩
  · intro hmem
    simp [orderStep, hmem]
  · intro hmem hfail
    simp only [orderStep, if_pos hmem, hanchor, hfail]
    simp
  · intro hmem hok
    simp only [orderStep, if_pos hmem, hanchor, hok]
    simp
  · by_cases hmem : itemId ∈ members
    · by_cases hok : moveOk itemId s.prev = true
      · right
        refine ⟨itemId, ?_, hmem⟩
        simp only [orderStep, if_pos hmem, hanchor, hok]
        simp
      · rw [Bool.not_eq_true] at hok
        simp only [orderStep, if_pos hmem, hanchor, hok]
        simpa using hinv
    · simp only [orderStep, if_neg hmem]
      simpa using hinv

/-- Witness for C8: from an anchor at member 1, a failed move of member 2
leaves the anchor at 1. -/
theorem ordering_anchor_recovery_witness :
    (orderStep [1, 2, 3] (fun i _ => decide (i ≠ 2)) ⟨some 1, 1, []⟩ 2).prev = some 1 ∧
    (orderStep [1, 2, 3] (fun i _ => decide (i ≠ 2)) ⟨some 1, 1, []⟩ 2).failed = [] ++ [2] ∧
    (orderStep [1, 2, 3] (fun i _ => decide (i ≠ 2)) ⟨some 1, 1, []⟩ 2).successes = 1 :=
  (ordering_anchor_recovery [1, 2, 3] (fun i _ => decide (i ≠ 2)) ⟨some 1, 1, []⟩ 2
    (Or.inr ⟨1, rfl, by decide⟩)).2.1 (by decide) (by decide)

/-- Claim C2, counterexample: `apply_collection_state_to_plex` is also a
reconciliation of a desired membership against current membership, but it
removes every existing item and adds every resolved desired item — here an
item present in both sets receives both a remove and an add call. -/
theorem diff_minimality_counterexample :
    (applyCollectionCalls
        (fun rk => if rk = "1" then some (⟨1, "X", none, "movie"⟩ : PlexItem) else none)
        [⟨1, "X", none, "movie"⟩] ["1"]).removeCall = [⟨1, "X", none, "movie"⟩] ∧
    (applyCollectionCalls
        (fun rk => if rk = "1" then some (⟨1, "X", none, "movie"⟩ : PlexItem) else none)
        [⟨1, "X", none, "movie"⟩] ["1"]).addCall = [⟨1, "X", none, "movie"⟩] ∧
    itemKey (⟨1, "X", none, "movie"⟩ : PlexItem)
      ∈ List.map itemKey [(⟨1, "X", none, "movie"⟩ : PlexItem)] ∧
    itemKey (⟨1, "X", none, "movie"⟩ : PlexItem)
      ∈ List.map itemKey (applyResolve
          (fun rk => if rk = "1" then some (⟨1, "X", none, "movie"⟩ : PlexItem) else none)
          ["1"]).desired := by
  decide

/-- Claim C2 as amended: in `refresh_collection_with_points` the diff is
minimal — `to_remove` only holds current items whose key is not desired,
`to_add` only desired items whose key is not current, and an item whose key
is in both sets lands in neither list; `apply_collection_state_to_plex`
instead removes all existing items and adds all resolved desired items,
regardless of overlap. -/
theorem diff_minimality_amended (current final existing : List PlexItem)
    (fetch : String → Option PlexItem) (rating_keys : List String) :
    (∀ i ∈ (refreshDiff current final).1,
      i ∈ current ∧ itemKey i ∉ final.map itemKey) ∧
    (∀ i ∈ (refreshDiff current final).2,
      i ∈ final ∧ itemKey i ∉ current.map itemKey) ∧
    (∀ i, itemKey i ∈ current.map itemKey → itemKey i ∈ final.map itemKey →
      i ∉ (refreshDiff current final).1 ∧ i ∉ (refreshDiff current final).2) ∧
    (applyCollectionCalls fetch existing rating_keys).removeCall = existing ∧
    (applyCollectionCalls fetch existing rating_keys).addCall
      = (applyResolve fetch rating_keys).desired := by
  refine ⟨?_, ?_, ?_, rfl, rfl⟩
  · intro i hi
    simp only [refreshDiff, List.mem_filter, decide_eq_true_eq] at hi
    exact hi
  · intro i hi
    simp only [refreshDiff, List.mem_filter, decide_eq_true_eq] at hi
    exact hi
  · intro i hc hf
    constructor
    · simp only [refreshDiff, List.mem_filter, decide_eq_true_eq]
      intro hmem
      exact hmem.2 hf
    · simp only [refreshDiff, List.mem_filter, decide_eq_true_eq]
      intro hmem
      exact hmem.2 hc

/-- Witness for the amended C2 theorem: an item whose key is both current
and desired is in neither diff list. -/
theorem diff_minimality_amended_witness :
    (⟨2, "B", none, "movie"⟩ : PlexItem)
      ∉ (refreshDiff [⟨1, "A", none, "movie"⟩, ⟨2, "B", none, "movie"⟩]
          [⟨2, "B", none, "movie"⟩]).1 ∧
    (⟨2, "B", none, "movie"⟩ : PlexItem)
      ∉ (refreshDiff [⟨1, "A", none, "movie"⟩, ⟨2, "B", none, "movie"⟩]
          [⟨2, "B", none, "movie"⟩]).2 :=
  (diff_minimality_amended [⟨1, "A", none, "movie"⟩, ⟨2, "B", none, "movie"⟩]
      [⟨2, "B", none, "movie"⟩] [] (fun _ => none) []).2.2.1
    ⟨2, "B", none, "movie"⟩ (by decide) (by decide)

/-- Helper: the attempt loop performs at most one invocation more than the
retries it is allowed. -/
theorem retryRun_invocations_le {T : Type} (results : Nat → AttemptResult T) (ro : Bool)
    (d m : Rat) (attempt n : Nat) :
    (retryRun results ro d m attempt n).invocations ≤ n + 1 := by
  induction n generalizing attempt with
  | zero =>
    unfold retryRun
    cases results attempt <;> simp
  | succ n ih =>
    unfold retryRun
    cases results attempt with
    | ok t => simp
    | err e =>
      by_cases hr : isRetryableError e = true
      · simp only [hr, if_true]
        exact Nat.succ_le_succ (ih (attempt + 1))
      · simp [hr]

/-- Helper: the j-th sleep of the attempt loop is
`retry_delay * backoff_multiplier ^ (attempt + j)`. -/
theorem retryRun_delays {T : Type} (results : Nat → AttemptResult T) (ro : Bool)
    (d m : Rat) (attempt n : Nat) :
    ∀ j, j < (retryRun results ro d m attempt n).delays.length →
      (retryRun results ro d m attempt n).delays[j]? = some (d * m ^ (attempt + j)) := by
  induction n generalizing attempt with
  | zero =>
    intro j hj
    cases hres : results attempt with
    | ok t => simp [retryRun, hres] at hj
    | err e => simp [retryRun, hres] at hj
  | succ n ih =>
    intro j hj
    cases hres : results attempt with
    | ok t => simp [retryRun, hres] at hj
    | err e =>
      by_cases hr : isRetryableError e = true
      · simp only [retryRun, hres, hr, if_true] at hj ⊢
        cases j with
        | zero => simp
        | succ j =>
          have hj2 : j < (retryRun results ro d m (attempt + 1) n).delays.length := by
            simpa using hj
          have hrec := ih (attempt + 1) j hj2
          have harith : attempt + 1 + j = attempt + (j + 1) := by omega
          rw [harith] at hrec
          simpa using hrec
      · simp [retryRun, hres, hr] at hj

/-- Helper: when every attempt in range fails with a retryable error and the
caller asked for the default, the loop returns `(None, False)`. -/
theorem retryRun_all_fail {T : Type} (results : Nat → AttemptResult T)
    (d m : Rat) (attempt n : Nat)
    (hfail : ∀ i, attempt ≤ i → i ≤ attempt + n →
      ∃ e, results i = AttemptResult.err e ∧ isRetryableError e = true) :
    (retryRun results false d m attempt n).final = RetryFinal.returned none false := by
  induction n generalizing attempt with
  | zero =>
    obtain ⟨e, he, hr⟩ := hfail attempt le_rfl (by simp)
    unfold retryRun
    rw [he]
    simp
  | succ n ih =>
    obtain ⟨e, he, hr⟩ := hfail attempt le_rfl (by omega)
    unfold retryRun
    rw [he]
    simp only [hr, if_true]
    exact ih (attempt + 1) (fun i h1 h2 => hfail i (by omega) (by omega))

/-- Claim C6: `retry_with_backoff` invokes the operation at most
`max_retries + 1` times; the sleep after failed attempt `j` is
`retry_delay * backoff_multiplier ^ j`; and when every attempt fails with a
retryable error under `raise_on_final_failure = False`, it returns
`(None, False)` instead of raising. -/
theorem retry_contract {T : Type} (results : Nat → AttemptResult T) (maxRetries : Nat)
    (d m : Rat) (ro : Bool) :
    (retry_with_backoff results maxRetries d m ro).invocations ≤ maxRetries + 1 ∧
    (∀ j, j < (retry_with_backoff results maxRetries d m ro).delays.length →
      (retry_with_backoff results maxRetries d m ro).delays[j]? = some (d * m ^ j)) ∧
    ((∀ i, i ≤ maxRetries →
        ∃ e, results i = AttemptResult.err e ∧ isRetryableError e = true) →
      ro = false →
      (retry_with_backoff results maxRetries d m ro).final
        = RetryFinal.returned none false) := by
  refine ⟨retryRun_invocations_le results ro d m 0 maxRetries, ?_, ?_⟩
  · intro j hj
    have := retryRun_delays results ro d m 0 maxRetries j hj
    simpa using this
  · intro hfail hro
    subst hro
    exact retryRun_all_fail results d m 0 maxRetries
      (fun i h1 h2 => hfail i (by omega))

/-- Witness for C6: three retryable timeouts with `max_retries = 2` and the
default outcome requested end in `(None, False)`. -/
theorem retry_contract_witness :
    (retry_with_backoff (T := Unit)
        (fun _ => AttemptResult.err ⟨ExcType.timeout, none, "t"⟩) 2 2 3 false).final
      = RetryFinal.returned none false ∧
    (retry_with_backoff (T := Unit)
        (fun _ => AttemptResult.err ⟨ExcType.timeout, none, "t"⟩) 2 2 3 false).delays[0]?
      = some (2 * 3 ^ 0) :=
  ⟨(retry_contract (T := Unit)
      (fun _ => AttemptResult.err ⟨ExcType.timeout, none, "t"⟩) 2 2 3 false).2.2
      (fun i _ => ⟨⟨ExcType.timeout, none, "t"⟩, rfl, by decide⟩) rfl,
   (retry_contract (T := Unit)
      (fun _ => AttemptResult.err ⟨ExcType.timeout, none, "t"⟩) 2 2 3 false).2.1
      0 (by decide)⟩

/-- Claim C7, counterexample: a plain exception (no HTTP status, not a
typed connection/timeout class) whose message holds both a connection
keyword and an authorization marker. The spec's ordered rules reach rule
(3) and classify it permanent; the code's generic connection-keyword check
runs before its marker checks and retries it. -/
theorem failure_classification_counterexample :
    isRetryableError ⟨ExcType.otherExc, none, "connection lost: 401 unauthorized"⟩ = true ∧
    specRetryableClassifier ⟨ExcType.otherExc, none, "connection lost: 401 unauthorized"⟩
      = false := by
  decide

/-- Claim C7 as amended: statuses in `[400,500)` are permanent and the
operation runs exactly once; statuses in `[500,600)` and typed
connection/timeout errors are retryable; for plain request-library errors
the client-error markers win over the connection keywords; for all other
errors the connection/timeout keywords win over the `BadRequest`/`NotFound`
types and the authorization/not-found markers; anything unclassified is
retryable. -/
theorem failure_classification_amended (e : Exc) (T : Type)
    (results : Nat → AttemptResult T) (maxRetries : Nat) (d m : Rat) (ro : Bool) :
    (e.ty = ExcType.httpError → ∀ sc, e.status = some sc → 400 ≤ sc → sc < 500 →
      isRetryableError e = false ∧
      (results 0 = AttemptResult.err e →
        (retry_with_backoff results maxRetries d m ro).invocations = 1)) ∧
    (e.ty = ExcType.httpError → ∀ sc, e.status = some sc → 500 ≤ sc → sc < 600 →
      isRetryableError e = true) ∧
    (isTypedConnTimeout e = true → isRetryableError e = true) ∧
    (e.ty = ExcType.requestException →
      containsAny (strLower e.msg) clientMarkers = true → isRetryableError e = false) ∧
    (e.ty = ExcType.requestException →
      containsAny (strLower e.msg) clientMarkers = false →
      containsAny (strLower e.msg) connKeywords = true → isRetryableError e = true) ∧
    (e.ty = ExcType.otherExc → containsAny (strLower e.msg) connKeywords2 = true →
      isRetryableError e = true) ∧
    (e.ty = ExcType.otherExc → containsAny (strLower e.msg) connKeywords2 = false →
      (containsAny (strLower e.msg) authMarkers = true ∨
        containsAny (strLower e.msg) notFoundMarkers = true) →
      isRetryableError e = false) ∧
    ((e.ty = ExcType.badRequest ∨ e.ty = ExcType.notFound) →
      containsAny (strLower e.msg) connKeywords2 = false → isRetryableError e = false) ∧
    (e.ty = ExcType.otherExc → containsAny (strLower e.msg) connKeywords2 = false →
      containsAny (strLower e.msg) authMarkers = false →
      containsAny (strLower e.msg) notFoundMarkers = false →
      isRetryableError e = true) := by
  refine ⟨?_, ?_, ?_, ?_, ?_, ?_, ?_, ?_, ?_⟩
  · intro hty sc hst h1 h2
    have hperm : isRetryableError e = false := by
      simp [isRetryableError, hty, hst, h1, h2]
    refine ⟨hperm, ?_⟩
    intro hres
    cases maxRetries with
    | zero => simp [retry_with_backoff, retryRun, hres]
    | succ n => simp [retry_with_backoff, retryRun, hres, hperm]
  · intro hty sc hst h1 h2
    have h3 : ¬ (sc < 500) := by omega
    simp [isRetryableError, hty, hst, h1, h2, h3]
  · intro h
    have h2 := of_decide_eq_true h
    simp only [List.mem_cons, List.not_mem_nil, or_false] at h2
    rcases h2 with h3 | h3 | h3 | h3 | h3 <;> simp [isRetryableError, h3]
  · intro hty hm
    simp [isRetryableError, hty, hm]
  · intro hty hm hk
    simp [isRetryableError, hty, hm, hk]
  · intro hty hk
    simp [isRetryableError, hty, hk]
  · intro hty hk hmark
    rcases hmark with hm | hm
    · simp [isRetryableError, hty, hk, hm]
    · by_cases ha : containsAny (strLower e.msg) authMarkers = true
      · simp [isRetryableError, hty, hk, ha]
      · simp at ha
        simp [isRetryableError, hty, hk, ha, hm]
  · intro hty hk
    rcases hty with h3 | h3 <;> simp [isRetryableError, h3, hk]
  · intro hty hk ha hn
    simp [isRetryableError, hty, hk, ha, hn]

/-- Witness for the amended C7 theorem at concrete errors in each class. -/
theorem failure_classification_amended_witness :
    isRetryableError ⟨ExcType.httpError, some 404, "e"⟩ = false ∧
    isRetryableError ⟨ExcType.httpError, some 503, "e"⟩ = true ∧
    isRetryableError ⟨ExcType.timeout, none, "e"⟩ = true ∧
    isRetryableError ⟨ExcType.otherExc, none, "401 unauthorized"⟩ = false ∧
    isRetryableError ⟨ExcType.otherExc, none, "mystery"⟩ = true :=
  ⟨((failure_classification_amended ⟨ExcType.httpError, some 404, "e"⟩ Unit
      (fun _ => AttemptResult.ok ()) 0 0 0 false).1 rfl 404 rfl (by decide) (by decide)).1,
   (failure_classification_amended ⟨ExcType.httpError, some 503, "e"⟩ Unit
      (fun _ => AttemptResult.ok ()) 0 0 0 false).2.1 rfl 503 rfl (by decide) (by decide),
   (failure_classification_amended ⟨ExcType.timeout, none, "e"⟩ Unit
      (fun _ => AttemptResult.ok ()) 0 0 0 false).2.2.1 (by decide),
   (failure_classification_amended ⟨ExcType.otherExc, none, "401 unauthorized"⟩ Unit
      (fun _ => AttemptResult.ok ()) 0 0 0 false).2.2.2.2.2.2.1 rfl (by decide)
      (Or.inl (by decide)),
   (failure_classification_amended ⟨ExcType.otherExc, none, "mystery"⟩ Unit
      (fun _ => AttemptResult.ok ()) 0 0 0 false).2.2.2.2.2.2.2.2 rfl (by decide)
      (by decide) (by decide)⟩

/-- Helper: `_set_points` then `_get_points` reads back the written value,
and leaves every other key's reading alone. -/
theorem pmGetPoints_pmSetPoints (pd : Store String PVal) (k k' : String) (n : Int) :
    pmGetPoints (pmSetPoints pd k n) k' = if k' = k then n else pmGetPoints pd k' := by
  by_cases h : k' = k
  · subst h
    cases hv : slookup pd k' with
    | none => simp [pmSetPoints, hv, pmGetPoints, slookup_sinsert]
    | some v =>
      cases v with
      | num i => simp [pmSetPoints, hv, pmGetPoints, slookup_sinsert]
      | obj p s => simp [pmSetPoints, hv, pmGetPoints, slookup_sinsert]
  · cases hv : slookup pd k with
    | none => simp [pmSetPoints, hv, pmGetPoints, slookup_sinsert, h]
    | some v => cases v <;> simp [pmSetPoints, hv, pmGetPoints, slookup_sinsert, h]

/-- Helper: the ensure-zeros loop never changes what `_get_points` reads —
a missing key already reads as 0 and gets written as 0. -/
theorem pmGetPoints_ensureZeros (ks : List String) (pd : Store String PVal) (k : String) :
    pmGetPoints (ensureZeros ks pd) k = pmGetPoints pd k := by
  induction ks generalizing pd with
  | nil => rfl
  | cons k0 t ih =>
    simp only [ensureZeros, List.foldl_cons]
    by_cases h : (slookup pd k0).isSome
    · rw [if_pos h]
      exact ih pd
    · rw [if_neg h]
      have hnone : slookup pd k0 = none := by
        rwa [← Option.not_isSome_iff_eq_none]
      have h2 := ih (pmSetPoints pd k0 0)
      rw [show ensureZeros t (pmSetPoints pd k0 0)
            = List.foldl (fun acc k => if (slookup acc k).isSome = true then acc
                else pmSetPoints acc k 0) (pmSetPoints pd k0 0) t from rfl] at h2
      rw [h2, pmGetPoints_pmSetPoints]
      by_cases hk : k = k0
      · subst hk
        rw [if_pos rfl]
        simp [pmGetPoints, hnone]
      · rw [if_neg hk]

/-- Helper: the boost loop adds one point per occurrence of the key in the
suggested list — with no cap of any kind. -/
theorem pmGetPoints_boost (sugg : List String) (pd : Store String PVal) (k : String) :
    pmGetPoints (boost sugg pd) k = pmGetPoints pd k + (sugg.count k : Int) := by
  induction sugg generalizing pd with
  | nil => simp [boost]
  | cons k0 t ih =>
    simp only [boost, List.foldl_cons]
    have h2 := ih (pmSetPoints pd k0 (pmGetPoints pd k0 + 1))
    rw [show List.foldl (fun acc k => pmSetPoints acc k (pmGetPoints acc k + 1))
          (pmSetPoints pd k0 (pmGetPoints pd k0 + 1)) t
        = boost t (pmSetPoints pd k0 (pmGetPoints pd k0 + 1)) from rfl]
    rw [h2, pmGetPoints_pmSetPoints]
    by_cases hk : k = k0
    · subst hk
      rw [if_pos rfl, List.count_cons_self]
      push_cast
      ring
    · rw [if_neg hk, List.count_cons_of_ne hk]

/-- Claim C1, counterexample: a movie already at `max_points = 50` that is
suggested again ends at 51, not at `min(50, 50 + 1) = 50` — the boost loop
has no cap. -/
theorem boost_cap_counterexample :
    pmGetPoints (build_final_items_with_points [] [⟨1, "A", none, "movie"⟩]
        [("1", PVal.num 50)]).2.2 "1" = 51 ∧
    min 50 (pmGetPoints [("1", PVal.num 50)] "1" + 1) = 50 := by
  decide

/-- Helper: a key outside the key list looks up to nothing. -/
theorem slookup_eq_none_of_not_mem {κ V : Type} [DecidableEq κ]
    (pd : Store κ V) (k : κ) (h : k ∉ skeys pd) : slookup pd k = none := by
  cases hv : slookup pd k with
  | none => rfl
  | some v => exact absurd (mem_skeys_of_slookup pd k v hv) h

/-- Helper: migrating a key onto itself does nothing. -/
theorem migrateKey_self (pd : Store String TVVal) (k : String) :
    migrateKey pd k k = pd := by
  unfold migrateKey
  rw [if_neg]
  intro hc
  exact hc.1 rfl

/-- Helper: for any key other than the migration target, `migrateKey`
either drops the binding (the migration source) or leaves it alone. -/
theorem slookup_migrateKey_ne (pd : Store String TVVal) (oldKey key k : String)
    (hk : k ≠ key) :
    slookup (migrateKey pd oldKey key) k = none ∨
    slookup (migrateKey pd oldKey key) k = slookup pd k := by
  unfold migrateKey
  split
  · cases hv : slookup pd oldKey with
    | none => right; rfl
    | some v =>
      rw [slookup_sinsert, if_neg hk, slookup_serase]
      by_cases h2 : k = oldKey
      · left
        rw [if_pos h2]
      · right
        rw [if_neg h2]
  · right; rfl

/-- Helper: `migrateKey` keeps the store's keys duplicate-free. -/
theorem nodup_migrateKey (pd : Store String TVVal) (oldKey key : String)
    (h : (skeys pd).Nodup) : (skeys (migrateKey pd oldKey key)).Nodup := by
  unfold migrateKey
  split
  · cases hv : slookup pd oldKey with
    | none => exact h
    | some v => exact nodup_sinsert _ _ _ (nodup_serase _ _ h)
  · exact h

/-- Helper: the suggested-keys list the run accumulates is exactly the keys
of the recommendations, in order (migration never touches it). -/
theorem tvSuggFold_keys (index : Store Int String) (recs : List TVRec) :
    ∀ st : Store String TVVal × List String,
      (recs.foldl (tvSuggStep index) st).2 = st.2 ++ recs.map tvRecKey := by
  induction recs with
  | nil => intro st; simp
  | cons r t ih =>
    intro st
    simp only [List.foldl_cons, List.map_cons]
    rw [ih]
    show (tvSuggStep index st r).2 ++ _ = _
    simp [tvSuggStep, List.append_assoc]

/-- The suggested keys of a whole run. -/
theorem tvSuggestedKeys_eq (pd : Store String TVVal) (recs : List TVRec) :
    tvSuggestedKeys pd recs = recs.map tvRecKey := by
  unfold tvSuggestedKeys tvSuggestPhase
  rw [tvSuggFold_keys]
  simp

/-- Helper: over a consistently keyed store, every binding of the tvdb
index maps an id to its canonical `tvdb:` key. -/
theorem tvBuildIndex_spec (pd : Store String TVVal) (hwf : TVWellKeyed pd) :
    ∀ t k, slookup (tvBuildIndex pd) t = some k → k = "tvdb:" ++ toString t := by
  have aux : ∀ (l : List (String × TVVal)),
      (∀ p ∈ l, tvTvdbField p.2 ≠ 0 → p.1 = "tvdb:" ++ toString (tvTvdbField p.2)) →
      ∀ acc : Store Int String,
        (∀ t k, slookup acc t = some k → k = "tvdb:" ++ toString t) →
        ∀ t k, slookup (l.foldl (fun acc p =>
            if tvTvdbField p.2 ≠ 0 then sinsert acc (tvTvdbField p.2) p.1 else acc) acc) t
          = some k → k = "tvdb:" ++ toString t := by
    intro l
    induction l with
    | nil =>
      intro hw acc hacc t k h
      exact hacc t k h
    | cons p l2 ih =>
      intro hw acc hacc t k h
      simp only [List.foldl_cons] at h
      refine ih (fun q hq => hw q (List.mem_cons_of_mem p hq)) _ ?_ t k h
      intro t2 k2 h2
      by_cases hz : tvTvdbField p.2 ≠ 0
      · rw [if_pos hz, slookup_sinsert] at h2
        by_cases ht : t2 = tvTvdbField p.2
        · rw [if_pos ht] at h2
          have hk2 : k2 = p.1 := by
            injection h2 with hh
            exact hh.symm
          rw [hk2, hw p (List.mem_cons_self p l2) hz, ht]
        · rw [if_neg ht] at h2
          exact hacc t2 k2 h2
      · rw [if_neg hz] at h2
        exact hacc t2 k2 h2
  intro t k h
  refine aux pd hwf [] ?_ t k h
  intro t2 k2 h2
  simp [slookup] at h2

/-- Helper: over a consistently keyed store the migration step never fires —
any key the index knows for the run's tvdb id is the run's own key. -/
theorem tvMigrated_eq (pd0 : Store String TVVal) (hwf : TVWellKeyed pd0)
    (pd : Store String TVVal) (r : TVRec) :
    tvMigrated (tvBuildIndex pd0) pd r = pd := by
  unfold tvMigrated
  by_cases hz : r.tvdbId ≠ 0
  · rw [if_pos hz]
    cases hl : slookup (tvBuildIndex pd0) r.tvdbId with
    | none => rfl
    | some oldKey =>
      have hk := tvBuildIndex_spec pd0 hwf r.tvdbId oldKey hl
      have h2 : oldKey = tvRecKey r := by
        rw [hk]
        unfold tvRecKey tvPointsKey
        rw [if_pos hz]
      rw [h2]
      exact migrateKey_self pd (tvRecKey r)
  · rw [if_neg hz]

/-- Helper: over a consistently keyed store the suggestion loop only ever
inserts at the run's own keys, so every other key's binding is untouched. -/
theorem tvSuggFold_lookup_unchanged (pd0 : Store String TVVal) (hwf : TVWellKeyed pd0)
    (recs : List TVRec) :
    ∀ (st : Store String TVVal × List String) (k : String), k ∉ recs.map tvRecKey →
      slookup (recs.foldl (tvSuggStep (tvBuildIndex pd0)) st).1 k = slookup st.1 k := by
  induction recs with
  | nil =>
    intro st k _
    rfl
  | cons r t ih =>
    intro st k hk
    have hk1 : k ≠ tvRecKey r := by
      intro hh
      exact hk (by simp [hh])
    have hk2 : k ∉ t.map tvRecKey := by
      intro hh
      exact hk (by simp [hh])
    simp only [List.foldl_cons]
    rw [ih (tvSuggStep (tvBuildIndex pd0) st r) k hk2]
    show slookup (sinsert (tvMigrated (tvBuildIndex pd0) st.1 r) (tvRecKey r)
      (TVVal.entry (tvWriteEntry (tvMigrated (tvBuildIndex pd0) st.1 r) r))) k = _
    rw [tvMigrated_eq pd0 hwf, slookup_sinsert, if_neg hk1]

/-- Helper: over a consistently keyed store, keys already present and keys
suggested by the run are present after the suggestion loop. -/
theorem tvSuggFold_present (pd0 : Store String TVVal) (hwf : TVWellKeyed pd0)
    (recs : List TVRec) :
    ∀ (st : Store String TVVal × List String) (k : String),
      (slookup st.1 k).isSome = true ∨ k ∈ recs.map tvRecKey →
      (slookup (recs.foldl (tvSuggStep (tvBuildIndex pd0)) st).1 k).isSome = true := by
  induction recs with
  | nil =>
    intro st k h
    rcases h with h | h
    · exact h
    · simp at h
  | cons r t ih =>
    intro st k h
    simp only [List.foldl_cons]
    apply ih
    by_cases hkey : k = tvRecKey r
    · left
      show (slookup (sinsert (tvMigrated (tvBuildIndex pd0) st.1 r) (tvRecKey r)
        (TVVal.entry (tvWriteEntry (tvMigrated (tvBuildIndex pd0) st.1 r) r))) k).isSome = true
      rw [slookup_sinsert, if_pos hkey]
      rfl
    · rcases h with h | h
      · left
        show (slookup (sinsert (tvMigrated (tvBuildIndex pd0) st.1 r) (tvRecKey r)
          (TVVal.entry (tvWriteEntry (tvMigrated (tvBuildIndex pd0) st.1 r) r))) k).isSome = true
        rw [tvMigrated_eq pd0 hwf, slookup_sinsert, if_neg hkey]
        exact h
      · rcases (by simpa using h : k = tvRecKey r ∨ ∃ a ∈ t, tvRecKey a = k) with
          h2 | ⟨a, ha, ha2⟩
        · exact absurd h2 hkey
        · right
          exact List.mem_map.mpr ⟨a, ha, ha2⟩

/-- The invariant of the suggestion loop: every suggested key currently in
the store holds a dict entry with `points = 50`. -/
def SuggInv (st : Store String TVVal × List String) : Prop :=
  ∀ k ∈ st.2, ∀ v, slookup st.1 k = some v →
    ∃ e, v = TVVal.entry e ∧ e.points = some 50

/-- Helper: one loop iteration preserves the invariant — migration can only
move or drop bindings, and the iteration ends by writing a `points = 50`
entry at its own key. -/
theorem tvSuggStep_inv (index : Store Int String) (st : Store String TVVal × List String)
    (r : TVRec) (h : SuggInv st) : SuggInv (tvSuggStep index st r) := by
  intro k hk v hv
  have hstep2 : (tvSuggStep index st r).2 = st.2 ++ [tvRecKey r] := rfl
  rw [hstep2] at hk
  have hstep1 : (tvSuggStep index st r).1
      = sinsert (tvMigrated index st.1 r) (tvRecKey r)
          (TVVal.entry (tvWriteEntry (tvMigrated index st.1 r) r)) := rfl
  rw [hstep1, slookup_sinsert] at hv
  by_cases hkey : k = tvRecKey r
  · rw [if_pos hkey] at hv
    injection hv with hv2
    exact ⟨tvWriteEntry (tvMigrated index st.1 r) r, hv2.symm, rfl⟩
  · rw [if_neg hkey] at hv
    have hk2 : k ∈ st.2 := by
      rcases List.mem_append.mp hk with h2 | h2
      · exact h2
      · exact absurd (by simpa using h2) hkey
    unfold tvMigrated at hv
    by_cases hz : r.tvdbId ≠ 0
    · rw [if_pos hz] at hv
      cases hl : slookup index r.tvdbId with
      | none =>
        rw [hl] at hv
        exact h k hk2 v hv
      | some oldKey =>
        rw [hl] at hv
        rcases slookup_migrateKey_ne st.1 oldKey (tvRecKey r) k hkey with h3 | h3
        · rw [h3] at hv
          cases hv
        · rw [h3] at hv
          exact h k hk2 v hv
    · rw [if_neg hz] at hv
      exact h k hk2 v hv

/-- Helper: the invariant holds after the whole loop. -/
theorem tvSuggFold_inv (index : Store Int String) (recs : List TVRec) :
    ∀ st, SuggInv st → SuggInv (recs.foldl (tvSuggStep index) st) := by
  induction recs with
  | nil =>
    intro st h
    exact h
  | cons r t ih =>
    intro st h
    simp only [List.foldl_cons]
    exact ih _ (tvSuggStep_inv index st r h)

/-- Helper: migration keeps keys duplicate-free. -/
theorem tvMigrated_nodup (index : Store Int String) (pd : Store String TVVal) (r : TVRec)
    (h : (skeys pd).Nodup) : (skeys (tvMigrated index pd r)).Nodup := by
  unfold tvMigrated
  by_cases hz : r.tvdbId ≠ 0
  · rw [if_pos hz]
    cases slookup index r.tvdbId with
    | none => exact h
    | some oldKey => exact nodup_migrateKey _ _ _ h
  · rw [if_neg hz]
    exact h

/-- Helper: the whole suggestion loop keeps keys duplicate-free. -/
theorem tvSuggFold_nodup (index : Store Int String) (recs : List TVRec) :
    ∀ st : Store String TVVal × List String, (skeys st.1).Nodup →
      (skeys (recs.foldl (tvSuggStep index) st).1).Nodup := by
  induction recs with
  | nil =>
    intro st h
    exact h
  | cons r t ih =>
    intro st h
    simp only [List.foldl_cons]
    exact ih _ (nodup_sinsert _ _ _ (tvMigrated_nodup index st.1 r h))

/-- Helper: the key list of a cons store. -/
theorem skeys_cons {κ V : Type} (pk : κ) (pv : V) (t : Store κ V) :
    skeys ((pk, pv) :: t) = pk :: skeys t := rfl

/-- Helper: a binding the decay loop drops disappears from the result. -/
theorem tvDecay_cons_none (sugg : List String) (pk : String) (pv : TVVal)
    (t : Store String TVVal) (hd : tvDecayVal sugg pk pv = none) :
    tvDecay sugg ((pk, pv) :: t) = tvDecay sugg t := by
  simp [tvDecay, List.filterMap_cons, hd]

/-- Helper: a binding the decay loop keeps (possibly rewritten) stays in
front of the rest. -/
theorem tvDecay_cons_some (sugg : List String) (pk : String) (pv w : TVVal)
    (t : Store String TVVal) (hd : tvDecayVal sugg pk pv = some w) :
    tvDecay sugg ((pk, pv) :: t) = (pk, w) :: tvDecay sugg t := by
  simp [tvDecay, List.filterMap_cons, hd]

/-- Helper: decay introduces no bindings for absent keys. -/
theorem slookup_tvDecay_none (sugg : List String) (pd : Store String TVVal) (k : String)
    (h : slookup pd k = none) : slookup (tvDecay sugg pd) k = none := by
  induction pd with
  | nil => rfl
  | cons p t ih =>
    obtain ⟨pk, pv⟩ := p
    have hp : ¬ pk = k := by
      intro hh
      simp [slookup, hh] at h
    have ht : slookup t k = none := by
      simpa [slookup, hp] using h
    cases hd : tvDecayVal sugg pk pv with
    | none =>
      rw [tvDecay_cons_none sugg pk pv t hd]
      exact ih ht
    | some w =>
      rw [tvDecay_cons_some sugg pk pv w t hd]
      show (if pk = k then some w else slookup (tvDecay sugg t) k) = none
      rw [if_neg hp]
      exact ih ht

/-- Helper: on a duplicate-free store, decay acts binding-wise: looking up
`k` after decay is `tvDecayVal` of what `k` held before. -/
theorem slookup_tvDecay (sugg : List String) (pd : Store String TVVal)
    (hnd : (skeys pd).Nodup) (k : String) (v : TVVal) (h : slookup pd k = some v) :
    slookup (tvDecay sugg pd) k = tvDecayVal sugg k v := by
  induction pd with
  | nil => simp [slookup] at h
  | cons p t ih =>
    obtain ⟨pk, pv⟩ := p
    rw [skeys_cons] at hnd
    have hnd1 := List.nodup_cons.mp hnd
    by_cases hp : pk = k
    · have hv : v = pv := by
        simp [slookup, hp] at h
        exact h.symm
      have hknt : k ∉ skeys t := by
        rw [← hp]
        exact hnd1.1
      have htn : slookup t k = none := slookup_eq_none_of_not_mem t k hknt
      cases hd : tvDecayVal sugg pk pv with
      | none =>
        rw [tvDecay_cons_none sugg pk pv t hd]
        rw [slookup_tvDecay_none sugg t k htn, hv, ← hp, hd]
      | some w =>
        rw [tvDecay_cons_some sugg pk pv w t hd]
        show (if pk = k then some w else slookup (tvDecay sugg t) k) = _
        rw [if_pos hp, hv, ← hp, hd]
    · have h2 : slookup t k = some v := by
        simpa [slookup, hp] using h
      cases hd : tvDecayVal sugg pk pv with
      | none =>
        rw [tvDecay_cons_none sugg pk pv t hd]
        exact ih hnd1.2 h2
      | some w =>
        rw [tvDecay_cons_some sugg pk pv w t hd]
        show (if pk = k then some w else slookup (tvDecay sugg t) k) = _
        rw [if_neg hp]
        exact ih hnd1.2 h2

/-- Claim C1 as amended: in the movie pass, a suggested item's points are
`points_before + 1` per suggestion occurrence (an entry is created at 0 if
absent) with no cap at `max_points`; in the TV pass, a suggested item's
entry is written with `points = 50` outright (stated for duplicate-free,
consistently keyed stores). -/
theorem boost_amended (existing run : List PlexItem) (pd : Store String PVal) (k : String)
    (pd0 : Store String TVVal) (recs : List TVRec)
    (hnd : (skeys pd0).Nodup) (hwf : TVWellKeyed pd0)
    (k2 : String) (hk2 : k2 ∈ recs.map tvRecKey) :
    pmGetPoints (build_final_items_with_points existing run pd).2.2 k
      = pmGetPoints pd k + ((run.map itemKey).count k : Int) ∧
    ∃ e, slookup (tvPointsUpdate pd0 recs) k2 = some (TVVal.entry e) ∧
      e.points = some 50 := by
  constructor
  · show pmGetPoints
      (boost (run.map itemKey) (ensureZeros (skeys (buildByKey existing run)) pd)) k = _
    rw [pmGetPoints_boost, pmGetPoints_ensureZeros]
  · have hkeys : (tvSuggestPhase pd0 recs).2 = recs.map tvRecKey := by
      unfold tvSuggestPhase
      rw [tvSuggFold_keys]
      simp
    have hnd1 : (skeys (tvSuggestPhase pd0 recs).1).Nodup := by
      unfold tvSuggestPhase
      exact tvSuggFold_nodup _ recs (pd0, []) hnd
    have hpres : (slookup (tvSuggestPhase pd0 recs).1 k2).isSome = true := by
      unfold tvSuggestPhase
      exact tvSuggFold_present pd0 hwf recs (pd0, []) k2 (Or.inr hk2)
    obtain ⟨v0, hv0⟩ := Option.isSome_iff_exists.mp hpres
    have hinv : SuggInv (tvSuggestPhase pd0 recs) := by
      unfold tvSuggestPhase
      refine tvSuggFold_inv _ recs (pd0, []) ?_
      intro kk hkk
      simp at hkk
    obtain ⟨e, hve, hp50⟩ := hinv k2 (by rw [hkeys]; exact hk2) v0 hv0
    simp only [tvPointsUpdate]
    rw [slookup_tvDecay (tvSuggestPhase pd0 recs).2 (tvSuggestPhase pd0 recs).1
      hnd1 k2 v0 hv0]
    simp only [tvDecayVal]
    rw [if_pos (by rw [hkeys]; exact hk2)]
    exact ⟨e, by rw [hve], hp50⟩

/-- Witness for the amended C1 theorem: a movie at 50 suggested once lands
at 51; a TV show suggested in a run gets a `points = 50` entry. -/
theorem boost_amended_witness :
    pmGetPoints (build_final_items_with_points [] [⟨1, "A", none, "movie"⟩]
        [("1", PVal.num 50)]).2.2 "1"
      = pmGetPoints [("1", PVal.num 50)] "1"
        + ((([(⟨1, "A", none, "movie"⟩ : PlexItem)]).map itemKey).count "1" : Int) ∧
    ∃ e, slookup (tvPointsUpdate [] [⟨"S", "s", "", 0⟩]) "title:s"
        = some (TVVal.entry e) ∧ e.points = some 50 :=
  boost_amended [] [⟨1, "A", none, "movie"⟩] [("1", PVal.num 50)] "1"
    [] [⟨"S", "s", "", 0⟩] (by decide) (by unfold TVWellKeyed; decide) "title:s" (by decide)

/-- Claim C3: an entry of a duplicate-free, consistently keyed store whose
key is not suggested by the run is decremented by one point, and it is
deleted exactly when the decremented value is `<= 0`. -/
theorem decay_monotonicity (pd0 : Store String TVVal) (recs : List TVRec)
    (hnd : (skeys pd0).Nodup) (hwf : TVWellKeyed pd0)
    (k : String) (hks : k ∉ recs.map tvRecKey)
    (v : TVVal) (hv : slookup pd0 k = some v) :
    (tvGetPoints v - 1 ≤ 0 → slookup (tvPointsUpdate pd0 recs) k = none) ∧
    (0 < tvGetPoints v - 1 →
      ∃ v2, slookup (tvPointsUpdate pd0 recs) k = some v2 ∧
        tvGetPoints v2 = tvGetPoints v - 1) := by
  have hkeys : (tvSuggestPhase pd0 recs).2 = recs.map tvRecKey := by
    unfold tvSuggestPhase
    rw [tvSuggFold_keys]
    simp
  have hnd1 : (skeys (tvSuggestPhase pd0 recs).1).Nodup := by
    unfold tvSuggestPhase
    exact tvSuggFold_nodup _ recs (pd0, []) hnd
  have hunch : slookup (tvSuggestPhase pd0 recs).1 k = some v := by
    unfold tvSuggestPhase
    rw [tvSuggFold_lookup_unchanged pd0 hwf recs (pd0, []) k hks]
    exact hv
  have hks2 : k ∉ (tvSuggestPhase pd0 recs).2 := by
    rw [hkeys]
    exact hks
  have hdec := slookup_tvDecay (tvSuggestPhase pd0 recs).2 (tvSuggestPhase pd0 recs).1
    hnd1 k v hunch
  constructor
  · intro hle
    simp only [tvPointsUpdate]
    rw [hdec]
    simp only [tvDecayVal]
    rw [if_neg hks2, if_pos hle]
  · intro hgt
    simp only [tvPointsUpdate]
    rw [hdec]
    simp only [tvDecayVal]
    rw [if_neg hks2]
    cases v with
    | notDict =>
      exfalso
      simp [tvGetPoints] at hgt
    | entry e =>
      rw [if_neg (by omega : ¬ (tvGetPoints (TVVal.entry e) - 1 ≤ 0))]
      exact ⟨_, rfl, by simp [tvGetPoints]⟩

/-- Witness for C3: with no suggestions, a 3-point entry decays to 2 and a
1-point entry is deleted. -/
theorem decay_monotonicity_witness :
    (∃ v2, slookup (tvPointsUpdate
        [("title:old", TVVal.entry ⟨some "Old", some 3, none, none⟩)] []) "title:old"
      = some v2 ∧
      tvGetPoints v2 = tvGetPoints (TVVal.entry ⟨some "Old", some 3, none, none⟩) - 1) ∧
    slookup (tvPointsUpdate
        [("title:low", TVVal.entry ⟨some "Low", some 1, none, none⟩)] []) "title:low"
      = none :=
  ⟨(decay_monotonicity [("title:old", TVVal.entry ⟨some "Old", some 3, none, none⟩)] []
      (by decide) (by unfold TVWellKeyed; decide) "title:old" (by decide)
      (TVVal.entry ⟨some "Old", some 3, none, none⟩) (by decide)).2 (by decide),
   (decay_monotonicity [("title:low", TVVal.entry ⟨some "Low", some 1, none, none⟩)] []
      (by decide) (by unfold TVWellKeyed; decide) "title:low" (by decide)
      (TVVal.entry ⟨some "Low", some 1, none, none⟩) (by decide)).1 (by decide)⟩

/-- Claim C4: every entry surviving a TV scoring pass over a duplicate-free
store reads at least one point — suggested entries are written at 50 and
every other entry is either decremented to a positive value or deleted. -/
theorem no_zero_survivors (pd0 : Store String TVVal) (recs : List TVRec)
    (hnd : (skeys pd0).Nodup) (k : String) (v : TVVal)
    (h : slookup (tvPointsUpdate pd0 recs) k = some v) :
    1 ≤ tvGetPoints v := by
  have hnd1 : (skeys (tvSuggestPhase pd0 recs).1).Nodup := by
    unfold tvSuggestPhase
    exact tvSuggFold_nodup _ recs (pd0, []) hnd
  simp only [tvPointsUpdate] at h
  cases h0 : slookup (tvSuggestPhase pd0 recs).1 k with
  | none =>
    rw [slookup_tvDecay_none _ _ _ h0] at h
    cases h
  | some v0 =>
    rw [slookup_tvDecay _ _ hnd1 k v0 h0] at h
    simp only [tvDecayVal] at h
    by_cases hk : k ∈ (tvSuggestPhase pd0 recs).2
    · have hinv : SuggInv (tvSuggestPhase pd0 recs) := by
        unfold tvSuggestPhase
        refine tvSuggFold_inv _ recs (pd0, []) ?_
        intro kk hkk
        simp at hkk
      obtain ⟨e, hve, hp50⟩ := hinv k hk v0 h0
      rw [if_pos hk] at h
      have hvv : v = v0 := by
        injection h with hh
        exact hh.symm
      rw [hvv, hve]
      simp [tvGetPoints, hp50]
    · rw [if_neg hk] at h
      by_cases h2 : tvGetPoints v0 - 1 ≤ 0
      · rw [if_pos h2] at h
        cases h
      · rw [if_neg h2] at h
        cases v0 with
        | notDict =>
          exfalso
          simp [tvGetPoints] at h2
        | entry e =>
          have hvv : v = TVVal.entry { e with points := some (tvGetPoints (TVVal.entry e) - 1) } := by
            injection h with hh
            exact hh.symm
          rw [hvv]
          simp only [tvGetPoints, Option.getD_some] at h2 ⊢
          omega

/-- Witness for C4 at a concrete run: the decayed survivor holds 2 points. -/
theorem no_zero_survivors_witness :
    1 ≤ tvGetPoints (TVVal.entry ⟨some "Old", some 2, none, none⟩) :=
  no_zero_survivors [("title:old", TVVal.entry ⟨some "Old", some 3, none, none⟩)] []
    (by decide) "title:old" (TVVal.entry ⟨some "Old", some 2, none, none⟩) (by decide)

end Immaculaterr
